import Mathlib

/-!
Shallow embedding of `src/extensions/amazon-aws/src/s3.tsx`: the paginated
object listing `fetchBucketObjects`, the error classifier
`isPermanentRedirectError` together with the error branch of the
`S3BucketObjects` component, and the size formatter `humanFileSize`.
JavaScript numbers are idealised as rationals; byte counts are integers
(the call site passes `object.Size || 0`).
-/

/-- A JavaScript error value as the extension observes it: its `name` and
`message` fields, whether it is an instance of the SDK class
`S3ServiceException`, and the `Bucket` field that the service attaches to
permanent-redirect responses (`S3PermanentRedirectError`). -/
structure JSError where
  isS3ServiceException : Bool
  name : String
  message : String
  Bucket : String
  deriving DecidableEq, Repr

/-- `isPermanentRedirectError` from the source: true exactly when the error
is an `S3ServiceException` whose `name` is `"PermanentRedirect"`. -/
def isPermanentRedirectError (err : JSError) : Bool :=
  err.isS3ServiceException && err.name == "PermanentRedirect"

/-- The two error views the `S3BucketObjects` component can render: the
region-mismatch view (showing the Bucket field of the error) and the
generic view (showing the name and message of the error). -/
inductive ObjectsErrorView where
  | regionMismatch (bucket : String)
  | generic (name message : String)
  deriving DecidableEq, Repr

/-- The error branch of the `S3BucketObjects` component: when
`isPermanentRedirectError error` holds it renders the region-mismatch view
with `error.Bucket`, otherwise the generic view with `error.name` and
`error.message`. -/
def renderObjectsError (err : JSError) : ObjectsErrorView :=
  if isPermanentRedirectError err then .regionMismatch err.Bucket
  else .generic err.name err.message

/-- `Math.round` on an idealised (rational) JavaScript number: round half
toward positive infinity. -/
def jsRound (q : ℚ) : ℤ := ⌊q + 1/2⌋

/-- `Number.prototype.toFixed()` (zero digits) on an idealised number: the
specification splits the sign off first, so ties round away from zero. -/
def jsToFixed0 (q : ℚ) : ℤ :=
  if q < 0 then -⌊-q + 1/2⌋ else ⌊q + 1/2⌋

/-- The unit sequence of `humanFileSize`. -/
def units : List String := ["kB", "MB", "GB", "TB", "PB", "EB", "ZB", "YB"]

/-- The do/while loop of `humanFileSize`: each call executes the loop body
once (divide `bytes` by 1000 and increment the unit index `u`) and recurses
exactly when the source loop condition
`Math.round(Math.abs(bytes) * 10) / 10 >= 1000 && u < units.length - 1`
holds. `fuel` bounds the recursion depth; it is irrelevant from 8 on
(`humanGo_fuel`) because the condition stops the loop at `u = 7`. -/
def humanGo : ℕ → ℚ → ℤ → ℚ × ℤ
  | 0, b, u => (b, u)
  | f + 1, b, u =>
    let b2 := b / 1000
    let u2 := u + 1
    if ((jsRound (|b2| * 10) : ℚ) / 10 ≥ 1000) ∧ u2 < (units.length : ℤ) - 1 then
      humanGo f b2 u2
    else
      (b2, u2)

/-- `humanFileSize` from the source, on integer byte counts: below the
threshold 1000 in absolute value it renders the bytes directly with a
`" B"` suffix, otherwise it runs the division loop starting from `u = -1`
and renders `bytes.toFixed() + " " + units[u]`. -/
def humanFileSize (bytes : ℤ) : String :=
  if |bytes| < 1000 then toString bytes ++ " B"
  else
    let r := humanGo 8 (bytes : ℚ) (-1)
    toString (jsToFixed0 r.1) ++ " " ++ units.getD r.2.toNat ""

/-- A response to one `ListObjectsCommand`: the optional item list
`Contents` and the optional continuation marker `NextMarker`, as
destructured by `fetchBucketObjects`. `α` is the object type. -/
structure ListObjectsResponse (α : Type) where
  Contents : Option (List α)
  NextMarker : Option String
  deriving DecidableEq, Repr

/-- JavaScript truthiness of the optional `NextMarker` string: `undefined`
and the empty string are falsy. -/
def jsTruthy : Option String → Bool
  | none => false
  | some s => s != ""

/-- `fetchBucketObjects` from the source. `send` models one
`S3Client.send(new ListObjectsCommand { Bucket, Marker }))` call: given
the bucket and the marker it either throws an error or returns a page.
The embedding additionally returns the list of markers passed to the
successive calls (the call trace), and takes a recursion bound `fuel`
(answering `none` when it is exhausted): the source recursion is unbounded
and every theorem below supplies sufficient fuel. -/
def fetchBucketObjects {α : Type}
    (send : String → Option String → Except JSError (ListObjectsResponse α)) :
    ℕ → String → Option String → List α →
      Option (Except JSError (List α) × List (Option String))
  | 0, _, _, _ => none
  | f + 1, bucket, nextMarker, objects =>
    match send bucket nextMarker with
    | .error e => some (.error e, [nextMarker])
    | .ok resp =>
      let combinedObjects := objects ++ resp.Contents.getD []
      if jsTruthy resp.NextMarker then
        match fetchBucketObjects send f bucket resp.NextMarker combinedObjects with
        | none => none
        | some rt => some (rt.1, nextMarker :: rt.2)
      else
        some (.ok combinedObjects, [nextMarker])

/-- The backing store answers, starting from marker `m`, the linked page
sequence `pages`: each page is returned for the marker reached so far, each
page except the last carries a truthy continuation marker, and the last
page carries none. -/
def Linked {α : Type}
    (send : String → Option String → Except JSError (ListObjectsResponse α))
    (bucket : String) : Option String → List (ListObjectsResponse α) → Prop
  | _, [] => False
  | m, p :: rest =>
    send bucket m = .ok p ∧
      match rest with
      | [] => jsTruthy p.NextMarker = false
      | _ :: _ => jsTruthy p.NextMarker = true ∧ Linked send bucket p.NextMarker rest

/-- The markers that a linked page sequence makes `fetchBucketObjects`
pass: the starting marker, then the continuation marker of every page but
the last. -/
def markersOf {α : Type} : Option String → List (ListObjectsResponse α) → List (Option String)
  | _, [] => []
  | m, [_] => [m]
  | m, p :: q :: rest => m :: markersOf p.NextMarker (q :: rest)

/-- The backing store answers, starting from marker `m`, the linked page
sequence `pages` and then fails with error `e` on the call after the last
page of `pages`. -/
def LinkedThenFail {α : Type}
    (send : String → Option String → Except JSError (ListObjectsResponse α))
    (bucket : String) (e : JSError) :
    Option String → List (ListObjectsResponse α) → Prop
  | m, [] => send bucket m = .error e
  | m, p :: rest =>
    send bucket m = .ok p ∧ jsTruthy p.NextMarker = true ∧
      LinkedThenFail send bucket e p.NextMarker rest

/-- The markers passed on a run that consumes the pages of `pages` and then
makes one more (failing) call. -/
def failTrace {α : Type} : Option String → List (ListObjectsResponse α) → List (Option String)
  | m, [] => [m]
  | m, p :: rest => m :: failTrace p.NextMarker rest

/-- A two-page demo store used to instantiate the pagination theorems: the
markerless call returns objects `"a"`, `"b"` and marker `"m1"`; the call
with marker `"m1"` returns object `"c"` and no marker; any other marker is
an error. -/
def demoSend : String → Option String → Except JSError (ListObjectsResponse String)
  | _, none => .ok ⟨some ["a", "b"], some "m1"⟩
  | _, some "m1" => .ok ⟨some ["c"], none⟩
  | _, some _ => .error ⟨true, "NoSuchMarker", "unknown marker", ""⟩

/-- The pages `demoSend` serves. -/
def demoPages : List (ListObjectsResponse String) :=
  [⟨some ["a", "b"], some "m1"⟩, ⟨some ["c"], none⟩]

/-- A store whose markerless call returns one page with marker `"m1"` and
whose call with marker `"m1"` throws, used to instantiate the
failure-propagation theorem. -/
def failSend : String → Option String → Except JSError (ListObjectsResponse String)
  | _, none => .ok ⟨some ["a", "b"], some "m1"⟩
  | _, some _ => .error ⟨true, "AccessDenied", "denied", ""⟩

/-- A store modelling an empty bucket: one page with no objects and no
marker. -/
def emptySend : String → Option String → Except JSError (ListObjectsResponse String)
  | _, _ => .ok ⟨some [], none⟩

/-- A store whose first page has no `Contents` field at all but carries a
continuation marker, and whose second page has one object. -/
def noContentsSend : String → Option String → Except JSError (ListObjectsResponse String)
  | _, none => .ok ⟨none, some "m1"⟩
  | _, some _ => .ok ⟨some ["z"], none⟩

theorem markersOf_length {α : Type} :
    ∀ (m : Option String) (pages : List (ListObjectsResponse α)),
      (markersOf m pages).length = pages.length
  | _, [] => rfl
  | _, [_] => rfl
  | m, p :: q :: rest => by
    simp [markersOf, markersOf_length p.NextMarker (q :: rest)]

/-- On a store answering a linked page sequence, `fetchBucketObjects`
succeeds with the accumulator followed by the page contents concatenated in
page order, passing exactly the markers of `markersOf`. -/
theorem fetchBucketObjects_of_linked {α : Type}
    (send : String → Option String → Except JSError (ListObjectsResponse α))
    (bucket : String) :
    ∀ (pages : List (ListObjectsResponse α)) (m : Option String) (acc : List α) (f : ℕ),
      Linked send bucket m pages → pages.length ≤ f →
      fetchBucketObjects send f bucket m acc =
        some (.ok (acc ++ pages.flatMap fun p => p.Contents.getD []), markersOf m pages) := by
  intro pages
  induction pages with
  | nil => intro m acc f h hf; simp [Linked] at h
  | cons p rest ih =>
    intro m acc f h hf
    simp only [Linked] at h
    obtain ⟨hsend, hrest⟩ := h
    cases f with
    | zero => simp at hf
    | succ f =>
      cases rest with
      | nil =>
        simp only at hrest
        simp [fetchBucketObjects, hsend, hrest, markersOf]
      | cons q rest2 =>
        obtain ⟨htruthy, hlink⟩ := hrest
        have hf2 : (q :: rest2).length ≤ f := by simpa using hf
        simp only [fetchBucketObjects, hsend, htruthy, if_true]
        rw [ih p.NextMarker (acc ++ p.Contents.getD []) f hlink hf2]
        simp [markersOf]

/-- C1: for a non-empty bucket whose store answers N linked pages,
`fetchBucketObjects` with fuel N, starting with no marker and an empty
accumulator, returns all page contents concatenated in page-then-within-page
order, of length the sum of the page sizes, and the call trace has exactly
N entries: the first call passes no marker and each subsequent call passes
the continuation marker of the previous response (that is the shape of
`markersOf`). -/
theorem fetchBucketObjects_paginates {α : Type}
    (send : String → Option String → Except JSError (ListObjectsResponse α))
    (bucket : String) (pages : List (ListObjectsResponse α))
    (h : Linked send bucket none pages) :
    fetchBucketObjects send pages.length bucket none [] =
      some (.ok (pages.flatMap fun p => p.Contents.getD []), markersOf none pages) ∧
    (pages.flatMap fun p => p.Contents.getD []).length =
      (pages.map fun p => (p.Contents.getD []).length).sum ∧
    (markersOf (none : Option String) pages).length = pages.length := by
  refine ⟨?_, ?_, markersOf_length none pages⟩
  · simpa using fetchBucketObjects_of_linked send bucket pages none [] pages.length h le_rfl
  · simp [List.length_flatMap, Function.comp_def]

/-- Witness for `fetchBucketObjects_paginates`: the two-page demo store,
with trace `[none, some "m1"]` and result `["a", "b", "c"]`. -/
theorem fetchBucketObjects_paginates_witness :
    Linked demoSend "b" none demoPages ∧
    fetchBucketObjects demoSend demoPages.length "b" none [] =
      some (.ok (demoPages.flatMap fun p => p.Contents.getD []), markersOf none demoPages) ∧
    demoPages.flatMap (fun p => p.Contents.getD []) = ["a", "b", "c"] ∧
    markersOf (none : Option String) demoPages = [none, some "m1"] :=
  have h : Linked demoSend "b" none demoPages := ⟨rfl, rfl, rfl, rfl⟩
  ⟨h, (fetchBucketObjects_paginates demoSend "b" demoPages h).1, rfl, rfl⟩

/-- On a store answering a linked page sequence and then failing,
`fetchBucketObjects` returns the error, whatever was accumulated. -/
theorem fetchBucketObjects_of_linkedThenFail {α : Type}
    (send : String → Option String → Except JSError (ListObjectsResponse α))
    (bucket : String) (e : JSError) :
    ∀ (pages : List (ListObjectsResponse α)) (m : Option String) (acc : List α) (f : ℕ),
      LinkedThenFail send bucket e m pages → pages.length < f →
      fetchBucketObjects send f bucket m acc = some (.error e, failTrace m pages) := by
  intro pages
  induction pages with
  | nil =>
    intro m acc f h hf
    cases f with
    | zero => simp at hf
    | succ f =>
      simp only [LinkedThenFail] at h
      simp [fetchBucketObjects, h, failTrace]
  | cons p rest ih =>
    intro m acc f h hf
    simp only [LinkedThenFail] at h
    obtain ⟨hsend, htruthy, hrest⟩ := h
    cases f with
    | zero => simp at hf
    | succ f =>
      simp only [fetchBucketObjects, hsend, htruthy, if_true]
      rw [ih p.NextMarker _ f hrest (by simpa using hf)]
      simp [failTrace]

/-- C3: if any listing call of the pagination sequence fails,
`fetchBucketObjects` fails as a whole with that error, and no accumulated
objects are exposed: its result is not `ok` for any object list. -/
theorem fetchBucketObjects_all_or_nothing {α : Type}
    (send : String → Option String → Except JSError (ListObjectsResponse α))
    (bucket : String) (e : JSError) (pages : List (ListObjectsResponse α))
    (h : LinkedThenFail send bucket e none pages) :
    fetchBucketObjects send (pages.length + 1) bucket none [] =
      some (.error e, failTrace none pages) ∧
    ∀ objs trace, fetchBucketObjects send (pages.length + 1) bucket none [] ≠
      some (.ok objs, trace) := by
  have h1 := fetchBucketObjects_of_linkedThenFail send bucket e pages none []
    (pages.length + 1) h (Nat.lt_succ_self _)
  refine ⟨h1, fun objs trace hcontra => ?_⟩
  rw [h1] at hcontra
  simp at hcontra

/-- Witness for `fetchBucketObjects_all_or_nothing`: the store serves one page
of two objects and then throws; nothing is returned. -/
theorem fetchBucketObjects_all_or_nothing_witness :
    LinkedThenFail failSend "b" ⟨true, "AccessDenied", "denied", ""⟩ none
      [⟨some ["a", "b"], some "m1"⟩] ∧
    fetchBucketObjects failSend 2 "b" none [] =
      some (.error ⟨true, "AccessDenied", "denied", ""⟩,
            failTrace none [(⟨some ["a", "b"], some "m1"⟩ : ListObjectsResponse String)]) :=
  have h : LinkedThenFail failSend "b" ⟨true, "AccessDenied", "denied", ""⟩ none
      [⟨some ["a", "b"], some "m1"⟩] := ⟨rfl, rfl, rfl⟩
  ⟨h, (fetchBucketObjects_all_or_nothing failSend "b" ⟨true, "AccessDenied", "denied", ""⟩
      [⟨some ["a", "b"], some "m1"⟩] h).1⟩

/-- C8: an empty bucket — the first call answers a page with no objects and
no continuation marker — yields the empty sequence without failing, and the
call trace is the single markerless call. -/
theorem fetchBucketObjects_empty_bucket {α : Type}
    (send : String → Option String → Except JSError (ListObjectsResponse α))
    (bucket : String) (resp : ListObjectsResponse α)
    (hsend : send bucket none = .ok resp)
    (hempty : resp.Contents.getD [] = [])
    (hmark : jsTruthy resp.NextMarker = false) :
    fetchBucketObjects send 1 bucket none [] = some (.ok [], [none]) := by
  simp [fetchBucketObjects, hsend, hempty, hmark]

/-- Witness for `fetchBucketObjects_empty_bucket` at the empty demo
store. -/
theorem fetchBucketObjects_empty_bucket_witness :
    emptySend "b" none = .ok ⟨some [], none⟩ ∧
    (ListObjectsResponse.mk (some ([] : List String)) none).Contents.getD [] = [] ∧
    jsTruthy (ListObjectsResponse.mk (some ([] : List String)) none).NextMarker = false ∧
    fetchBucketObjects emptySend 1 "b" none [] = some (.ok [], [none]) :=
  ⟨rfl, rfl, rfl, fetchBucketObjects_empty_bucket emptySend "b" ⟨some [], none⟩ rfl rfl rfl⟩

/-- C10: a page whose `Contents` field is absent contributes no objects —
the accumulator is passed on unchanged — and the run continues with the
response marker when that marker is truthy, or succeeds with the bare
accumulator when it is not; the missing field never causes a failure. -/
theorem fetchBucketObjects_missing_contents {α : Type}
    (send : String → Option String → Except JSError (ListObjectsResponse α))
    (bucket : String) (resp : ListObjectsResponse α) (f : ℕ)
    (m : Option String) (acc : List α)
    (hsend : send bucket m = .ok resp) (hc : resp.Contents = none) :
    fetchBucketObjects send (f + 1) bucket m acc =
      if jsTruthy resp.NextMarker then
        (fetchBucketObjects send f bucket resp.NextMarker acc).map fun rt => (rt.1, m :: rt.2)
      else some (.ok acc, [m]) := by
  simp only [fetchBucketObjects, hsend, hc, Option.getD_none, List.append_nil]
  split
  · cases fetchBucketObjects send f bucket resp.NextMarker acc with
    | none => rfl
    | some rt => rfl
  · rfl

/-- Witness for `fetchBucketObjects_missing_contents`: the first page of
`noContentsSend` has no `Contents` but carries marker `"m1"`; the run
continues and ends with the single object of the second page. -/
theorem fetchBucketObjects_missing_contents_witness :
    noContentsSend "b" none = .ok ⟨none, some "m1"⟩ ∧
    (ListObjectsResponse.mk (none : Option (List String)) (some "m1")).Contents = none ∧
    fetchBucketObjects noContentsSend 2 "b" none [] =
      (if jsTruthy (some "m1") then
        (fetchBucketObjects noContentsSend 1 "b" (some "m1") []).map
          fun rt => (rt.1, (none : Option String) :: rt.2)
      else some (.ok [], [none])) ∧
    fetchBucketObjects noContentsSend 2 "b" none [] = some (.ok ["z"], [none, some "m1"]) :=
  ⟨rfl, rfl,
    fetchBucketObjects_missing_contents noContentsSend "b" ⟨none, some "m1"⟩ 1 none [] rfl rfl,
    rfl⟩

/-- C2: the error branch of `S3BucketObjects` renders the region-mismatch
view, carrying the Bucket field of the error (which the service fills with
the requested bucket name), exactly for S3 service exceptions named
`"PermanentRedirect"`; every other error is rendered as the generic view
with the name and the message of the error unchanged. -/
theorem renderObjectsError_classifies (e : JSError) :
    renderObjectsError e =
      if e.isS3ServiceException = true ∧ e.name = "PermanentRedirect" then
        ObjectsErrorView.regionMismatch e.Bucket
      else
        ObjectsErrorView.generic e.name e.message := by
  by_cases hn : e.name = "PermanentRedirect" <;>
    cases hb : e.isS3ServiceException <;>
      simp [renderObjectsError, isPermanentRedirectError, hb, hn]

/-- C4: the five concrete test vectors of the size formatter. -/
theorem humanFileSize_vectors :
    humanFileSize 0 = "0 B" ∧ humanFileSize 999 = "999 B" ∧
    humanFileSize 1000 = "1 kB" ∧ humanFileSize 1500000 = "2 MB" ∧
    humanFileSize (-2048) = "-2 kB" := by
  refine ⟨?_, ?_, ?_, ?_, ?_⟩ <;> with_unfolding_all decide

/-- For an integer byte count in the band `[999500, 999950)` the scaled
value lies in `[999.5, 999.95)`: the one-decimal advance test stays below
1000, so the loop stops in the kB unit, while `toFixed` rounds the display
to 1000. -/
theorem humanFileSize_band (y : ℤ) (h1 : 999500 ≤ y) (h2 : y < 999950) :
    humanFileSize y = "1000 kB" := by
  have hy1 : (999500 : ℚ) ≤ ((y : ℤ) : ℚ) := by exact_mod_cast h1
  have hy2 : ((y : ℤ) : ℚ) < 999950 := by exact_mod_cast h2
  have habsy : |y| = y := abs_of_nonneg (by omega)
  have habs : ¬|y| < 1000 := by omega
  have habsb : |((y : ℤ) : ℚ) / 1000| = ((y : ℤ) : ℚ) / 1000 :=
    abs_of_pos (by linarith)
  have hcond : ¬(((jsRound (|((y : ℤ) : ℚ) / 1000| * 10) : ℚ) / 10 ≥ 1000) ∧
      ((-1 : ℤ) + 1) < (units.length : ℤ) - 1) := by
    rintro ⟨hc, -⟩
    have hle : (10000 : ℤ) ≤ jsRound (|((y : ℤ) : ℚ) / 1000| * 10) := by
      have : (10000 : ℚ) ≤ (jsRound (|((y : ℤ) : ℚ) / 1000| * 10) : ℚ) := by linarith
      exact_mod_cast this
    rw [jsRound, Int.le_floor] at hle
    rw [habsb] at hle
    push_cast at hle
    linarith
  have hstep : humanGo 8 ((y : ℤ) : ℚ) (-1) = (((y : ℤ) : ℚ) / 1000, 0) := by
    rw [humanGo]
    rw [if_neg hcond]
    norm_num
  have hfix : jsToFixed0 (((y : ℤ) : ℚ) / 1000) = 1000 := by
    rw [jsToFixed0, if_neg (by linarith : ¬((y : ℤ) : ℚ) / 1000 < 0),
      Int.floor_eq_iff]
    push_cast
    constructor <;> linarith
  rw [humanFileSize, if_neg habs]
  dsimp only
  rw [hstep]
  dsimp only
  rw [hfix]
  rfl

/-- C9: on input 999600 the value scales to 999.6 kB: the advance test
rounds to one decimal (999.6 < 1000, so the unit index stays at 0, kB)
while the display rounds to zero decimals (1000), so the output shows a
magnitude of 1000 in the non-terminal unit kB; more generally every input
in the band `[999500, 999950)` — scaled magnitude in `[999.5, 999.95)` —
displays as `"1000 kB"` without advancing the unit. -/
theorem humanFileSize_renders_1000_kB :
    humanFileSize 999600 = "1000 kB" ∧
    (humanGo 8 ((999600 : ℤ) : ℚ) (-1)).2 = 0 ∧
    jsToFixed0 (humanGo 8 ((999600 : ℤ) : ℚ) (-1)).1 = 1000 ∧
    ∀ y : ℤ, 999500 ≤ y → y < 999950 → humanFileSize y = "1000 kB" := by
  refine ⟨?_, ?_, ?_, fun y h1 h2 => humanFileSize_band y h1 h2⟩ <;>
    with_unfolding_all decide

/-- Witness for `humanFileSize_renders_1000_kB` instantiating the band
statement at 999700. -/
theorem humanFileSize_renders_1000_kB_witness :
    (999500 : ℤ) ≤ 999700 ∧ (999700 : ℤ) < 999950 ∧
    humanFileSize 999700 = "1000 kB" :=
  ⟨by decide, by decide,
    humanFileSize_renders_1000_kB.2.2.2 999700 (by decide) (by decide)⟩

/-- C5: below the threshold in absolute value the formatter renders the
byte count itself followed by `" B"`: on the integer byte counts of the
data model the rendering has no fractional part. -/
theorem humanFileSize_small (bytes : ℤ) (h : |bytes| < 1000) :
    humanFileSize bytes = toString bytes ++ " B" := by
  simp [humanFileSize, h]

/-- Witness for `humanFileSize_small` at 999. -/
theorem humanFileSize_small_witness :
    |(999 : ℤ)| < 1000 ∧ humanFileSize 999 = toString (999 : ℤ) ++ " B" :=
  ⟨by decide, humanFileSize_small 999 (by decide)⟩

/-- The unit list has the eight entries kB..YB. -/
theorem units_length : units.length = 8 := rfl

/-- The loop body is executed at most `7 - u` more times, so from enough
fuel on the result no longer depends on the fuel: the source loop
terminates after at most eight iterations. -/
theorem humanGo_fuel (f : ℕ) :
    ∀ (g : ℕ) (b : ℚ) (u : ℤ), 6 ≤ u + f → 6 ≤ u + g →
      humanGo (f + 1) b u = humanGo (g + 1) b u := by
  induction f with
  | zero =>
    intro g b u hf hg
    have hcond : ¬(((jsRound (|b / 1000| * 10) : ℚ) / 10 ≥ 1000) ∧
        u + 1 < (units.length : ℤ) - 1) := by
      rintro ⟨-, h2⟩
      rw [units_length] at h2
      omega
    cases g with
    | zero => rfl
    | succ g => simp only [humanGo, if_neg hcond]
  | succ f ih =>
    intro g b u hf hg
    by_cases hcond : ((jsRound (|b / 1000| * 10) : ℚ) / 10 ≥ 1000) ∧
        u + 1 < (units.length : ℤ) - 1
    · have hu : u + 1 < 7 := by
        have := hcond.2
        rwa [units_length] at this
      cases g with
      | zero => omega
      | succ g =>
        simp only [humanGo, if_pos hcond]
        exact ih g (b / 1000) (u + 1) (by omega) (by omega)
    · simp only [humanGo, if_neg hcond]

/-- The result index of the loop never drops below the start index. -/
theorem humanGo_u_ge : ∀ (f : ℕ) (b : ℚ) (u : ℤ), u ≤ (humanGo f b u).2 := by
  intro f
  induction f with
  | zero => intro b u; exact le_refl u
  | succ f ih =>
    intro b u
    simp only [humanGo]
    split
    · exact le_trans (by omega) (ih (b / 1000) (u + 1))
    · exact (by omega : u ≤ u + 1)

/-- One executed body makes the result index at least the start index plus
one. -/
theorem humanGo_u_ge_succ (f : ℕ) (b : ℚ) (u : ℤ) :
    u + 1 ≤ (humanGo (f + 1) b u).2 := by
  simp only [humanGo]
  split
  · exact humanGo_u_ge f (b / 1000) (u + 1)
  · exact le_refl (u + 1)

/-- The loop condition `u < units.length - 1` caps the result index at
7. -/
theorem humanGo_u_le : ∀ (f : ℕ) (b : ℚ) (u : ℤ), u ≤ 6 → (humanGo f b u).2 ≤ 7 := by
  intro f
  induction f with
  | zero => intro b u hu; exact le_trans hu (by omega)
  | succ f ih =>
    intro b u hu
    simp only [humanGo]
    split
    · rename_i hcond
      have hu2 : u + 1 < 7 := by
        have := hcond.2
        rwa [units_length] at this
      exact ih (b / 1000) (u + 1) (by omega)
    · omega

/-- C7: for every integer input the loop gives the same answer from any
fuel of at least 8 — the source do/while terminates within eight
iterations — and the unit index it selects lies between 0 (kB) and 7 (YB):
no unit beyond YB is ever selected. -/
theorem humanFileSize_unit_capped (bytes : ℤ) (f : ℕ) (hf : 8 ≤ f) :
    humanGo f ((bytes : ℤ) : ℚ) (-1) = humanGo 8 ((bytes : ℤ) : ℚ) (-1) ∧
    0 ≤ (humanGo 8 ((bytes : ℤ) : ℚ) (-1)).2 ∧
    (humanGo 8 ((bytes : ℤ) : ℚ) (-1)).2 ≤ 7 := by
  obtain ⟨f0, rfl⟩ : ∃ f0, f = f0 + 1 := ⟨f - 1, by omega⟩
  refine ⟨humanGo_fuel f0 7 ((bytes : ℤ) : ℚ) (-1) (by omega) (by norm_num), ?_, ?_⟩
  · simpa using humanGo_u_ge_succ 7 ((bytes : ℤ) : ℚ) (-1)
  · exact humanGo_u_le 8 ((bytes : ℤ) : ℚ) (-1) (by omega)

/-- Witness for `humanFileSize_unit_capped` at 5000 with fuel 9. -/
theorem humanFileSize_unit_capped_witness :
    8 ≤ 9 ∧
    (humanGo 9 ((5000 : ℤ) : ℚ) (-1) = humanGo 8 ((5000 : ℤ) : ℚ) (-1) ∧
     0 ≤ (humanGo 8 ((5000 : ℤ) : ℚ) (-1)).2 ∧
     (humanGo 8 ((5000 : ℤ) : ℚ) (-1)).2 ≤ 7) :=
  ⟨by decide, humanFileSize_unit_capped 5000 9 (by decide)⟩

/-- The loop is odd in the running value: negating the input negates the
value and leaves the unit index unchanged, because both the advance test
and the cap compare `Math.abs` of the value. -/
theorem humanGo_neg : ∀ (f : ℕ) (b : ℚ) (u : ℤ),
    humanGo f (-b) u = (-(humanGo f b u).1, (humanGo f b u).2) := by
  intro f
  induction f with
  | zero => intro b u; rfl
  | succ f ih =>
    intro b u
    have hb : -b / 1000 = -(b / 1000) := by ring
    simp only [humanGo, hb, abs_neg]
    by_cases hc : ((jsRound (|b / 1000| * 10) : ℚ) / 10 ≥ 1000) ∧
        u + 1 < (units.length : ℤ) - 1
    · simp only [if_pos hc, ih]
    · simp only [if_neg hc]

/-- `toFixed` is odd. -/
theorem jsToFixed0_neg (q : ℚ) : jsToFixed0 (-q) = -jsToFixed0 q := by
  unfold jsToFixed0
  rcases lt_trichotomy q 0 with h | h | h
  · rw [if_neg (by linarith), if_pos h, neg_neg]
  · subst h
    norm_num
  · rw [if_pos (by linarith), if_neg (by linarith), neg_neg]

/-- `toFixed` of a value of at least one half is at least one. -/
theorem jsToFixed0_pos (q : ℚ) (hq : 1 / 2 ≤ q) : 1 ≤ jsToFixed0 q := by
  unfold jsToFixed0
  rw [if_neg (by linarith)]
  rw [Int.le_floor]
  push_cast
  linarith

/-- Once the loop value is at least 999.95 on entry, every value the loop
returns is at least one half: each division keeps the value above 0.99995,
and the advance test only lets values of at least 999.95 continue. -/
theorem humanGo_val_ge : ∀ (f : ℕ) (b : ℚ) (u : ℤ),
    (99995 : ℚ) / 100 ≤ b → 1 / 2 ≤ (humanGo f b u).1 := by
  intro f
  induction f with
  | zero => intro b u hb; dsimp [humanGo]; linarith
  | succ f ih =>
    intro b u hb
    have hb2 : (99995 : ℚ) / 100000 ≤ b / 1000 := by linarith
    simp only [humanGo]
    by_cases hc : ((jsRound (|b / 1000| * 10) : ℚ) / 10 ≥ 1000) ∧
        u + 1 < (units.length : ℤ) - 1
    · rw [if_pos hc]
      refine ih (b / 1000) (u + 1) ?_
      have habs : |b / 1000| = b / 1000 := abs_of_pos (by linarith)
      have h1 : (10000 : ℚ) ≤ (jsRound (|b / 1000| * 10) : ℚ) := by
        have := hc.1
        linarith
      have h2 : (10000 : ℤ) ≤ jsRound (|b / 1000| * 10) := by exact_mod_cast h1
      have h3 : (10000 : ℚ) ≤ |b / 1000| * 10 + 1 / 2 := by
        have := (Int.le_floor (z := 10000) (a := |b / 1000| * 10 + 1 / 2)).mp h2
        push_cast at this
        linarith
      rw [habs] at h3
      linarith
    · rw [if_neg hc]
      dsimp
      linarith

/-- The string of the negation of a positive integer is the minus sign
followed by the string of the integer. -/
theorem int_toString_neg (x : ℤ) (hx : 0 < x) : toString (-x) = "-" ++ toString x := by
  obtain ⟨m, rfl⟩ : ∃ m : ℕ, x = ((m + 1 : ℕ) : ℤ) := ⟨(x - 1).toNat, by omega⟩
  rfl

/-- C6: the formatter treats a byte count and its negation symmetrically:
all unit-selection comparisons use the absolute value, so both pick the
same unit index, and the output for `-x` is the output for `x` with a
leading minus sign. -/
theorem humanFileSize_neg (x : ℤ) (hx : 0 < x) :
    humanFileSize (-x) = "-" ++ humanFileSize x ∧
    (humanGo 8 ((-x : ℤ) : ℚ) (-1)).2 = (humanGo 8 ((x : ℤ) : ℚ) (-1)).2 := by
  have hcast : ((-x : ℤ) : ℚ) = -((x : ℤ) : ℚ) := by push_cast; ring
  have hgo := humanGo_neg 8 ((x : ℤ) : ℚ) (-1)
  constructor
  case right => rw [hcast, hgo]
  case left =>
    by_cases hsmall : |x| < 1000
    · rw [humanFileSize, humanFileSize, if_pos (by rwa [abs_neg]), if_pos hsmall,
        int_toString_neg x hx, String.append_assoc]
    · have hx1000 : (1000 : ℤ) ≤ x := by
        rcases abs_cases x with ⟨h1, _⟩ | ⟨_, h2⟩ <;> omega
      have hval : 1 / 2 ≤ (humanGo 8 ((x : ℤ) : ℚ) (-1)).1 := by
        refine humanGo_val_ge 8 ((x : ℤ) : ℚ) (-1) ?_
        have : (1000 : ℚ) ≤ ((x : ℤ) : ℚ) := by exact_mod_cast hx1000
        linarith
      have hfix : 1 ≤ jsToFixed0 (humanGo 8 ((x : ℤ) : ℚ) (-1)).1 :=
        jsToFixed0_pos _ hval
      rw [humanFileSize, humanFileSize, if_neg (by rwa [abs_neg]), if_neg hsmall]
      rw [hcast, hgo]
      dsimp only
      rw [jsToFixed0_neg, int_toString_neg _ (by omega)]
      simp only [String.append_assoc]

/-- Witness for `humanFileSize_neg` at 2048. -/
theorem humanFileSize_neg_witness :
    (0 : ℤ) < 2048 ∧
    (humanFileSize (-2048) = "-" ++ humanFileSize 2048 ∧
     (humanGo 8 ((-2048 : ℤ) : ℚ) (-1)).2 = (humanGo 8 ((2048 : ℤ) : ℚ) (-1)).2) :=
  ⟨by decide, humanFileSize_neg 2048 (by decide)⟩
